import Mathlib

/-!
# Student Grade Management System — verification development

Shallow embedding of `src/main.py` (Student Grade Management System).

Modelling conventions:
* Python floats (grades) are modelled as rationals `ℚ`; every operation the
  program performs on grades (comparison, sum, mean, median, max, min) is
  exact on the inputs considered here.
* The Python `dict` `student_grades` is modelled as an association list
  `List (String × ℚ)` with Python-dict semantics: assignment to an existing
  key updates the value in place (keeping the key's position), assignment to
  a fresh key appends; iteration order is list order.
* `str.strip()` is modelled by `pyStrip` (drop whitespace from both ends).
* A possibly non-numeric grade input (Python `float(...)` may raise) is an
  `Option ℚ`: `none` for absent / non-numeric text, `some g` for text parsing
  to the number `g`.
* Functions that only print a message and return are modelled as returning
  the (unchanged) store together with an `OpResult` describing the message
  that was printed.
-/

namespace GradeMgmt

abbrev Grade := ℚ

/-- The in-memory store `student_grades`: insertion-ordered mapping from
student name to grade. -/
abbrev Store := List (String × Grade)

/-- Strip ASCII whitespace from both ends of a character list, as Python
`str.strip()` does (left `dropWhile`, then right `rdropWhile`). -/
def stripList (l : List Char) : List Char :=
  (l.dropWhile Char.isWhitespace).rdropWhile Char.isWhitespace

/-- Python `name.strip()`. -/
def pyStrip (s : String) : String :=
  String.mk (stripList s.data)

/-- `validate_name(name)` from `main.py`: `if not name or not name.strip():
return False; return True`. -/
def validate_name (name : String) : Bool :=
  if name = "" then false
  else if pyStrip name = "" then false
  else true

/-- `validate_grade(grade)` from `main.py`: `float(grade)` must succeed
(`none` models a failing conversion) and the value must lie in `[0, 100]`. -/
def validate_grade : Option Grade → Bool
  | none => false
  | some g => if 0 ≤ g ∧ g ≤ 100 then true else false

/-- `evaluate_performance(grade)` from `main.py`. -/
def evaluate_performance (grade : Grade) : String :=
  if grade ≥ 90 then "Excellent"
  else if grade ≥ 75 then "Good"
  else if grade ≥ 50 then "Average"
  else "Needs Improvement"

/-- Python dict assignment `d[k] = v`: replace in place if the key is
present, append otherwise. -/
def insertDict : Store → String → Grade → Store
  | [], k, v => [(k, v)]
  | (k', v') :: t, k, v =>
    if k' = k then (k', v) :: t else (k', v') :: insertDict t k v

/-- Python `del d[k]` (the caller has checked `k in d`): removes the entry
with the given key. -/
def eraseKey : Store → String → Store
  | [], _ => []
  | (k', v') :: t, k =>
    if k' = k then t else (k', v') :: eraseKey t k

/-- Outcome printed by a store operation in `main.py`. -/
inductive OpResult where
  | ok
  | invalidName
  | invalidGrade
  | notFound
  deriving DecidableEq, Repr

/-- `add_student(name, grade)` from `main.py`: strips the name, rejects an
invalid name, rejects an invalid grade, otherwise assigns
`student_grades[name] = float(grade)`. -/
def add_student (s : Store) (name : String) (grade : Option Grade) :
    Store × OpResult :=
  let name := pyStrip name
  if !validate_name name then (s, .invalidName)
  else if !validate_grade grade then (s, .invalidGrade)
  else (insertDict s name (grade.getD 0), .ok)

/-- `update_student(name, grade)` from `main.py`: strips the name, reports
not-found when the name is not a key, rejects an invalid grade, otherwise
assigns `student_grades[name] = float(grade)`. -/
def update_student (s : Store) (name : String) (grade : Option Grade) :
    Store × OpResult :=
  let name := pyStrip name
  if (s.lookup name).isNone then (s, .notFound)
  else if !validate_grade grade then (s, .invalidGrade)
  else (insertDict s name (grade.getD 0), .ok)

/-- `delete_student(name)` from `main.py`: strips the name, deletes the
entry when present, reports not-found otherwise. -/
def delete_student (s : Store) (name : String) : Store × OpResult :=
  let name := pyStrip name
  if (s.lookup name).isSome then (eraseKey s name, .ok)
  else (s, .notFound)

/-- The `[name, grade, evaluate_performance(grade)]` row built by the
display and search paths of `main.py`. -/
def rowTriple (p : String × Grade) : String × Grade × String :=
  (p.1, p.2, evaluate_performance p.2)

/-- Python `str.lower()`: lower-case every character. -/
def pyLower (s : String) : String :=
  String.mk (s.data.map Char.toLower)

/-- `search_student(query)` from `main.py`: lower-cases the stripped query
and keeps the entries whose lower-cased name contains it (Python
`query in name.lower()` is substring containment), reporting each as a
(name, grade, label) row. -/
def search_student (s : Store) (query : String) :
    List (String × Grade × String) :=
  (s.filter
    (fun p => decide ((pyLower (pyStrip query)).data <:+: (pyLower p.1).data))).map
    rowTriple

/-- The sorted list built by `sort_and_display` in `main.py`:
`sorted(student_grades.items(), key=..., reverse=reverse)`.  Python's
`sorted` is a stable sort; with `reverse=True` it behaves as a stable sort
under the flipped comparison.  `by == "grade"` sorts by the value, any other
key sorts by the name. -/
def sortedRows (s : Store) (byKey : String) (rev : Bool) : Store :=
  if byKey = "grade" then
    if rev then List.insertionSort (fun a b => b.2 ≤ a.2) s
    else List.insertionSort (fun a b => a.2 ≤ b.2) s
  else
    if rev then List.insertionSort (fun a b => b.1 ≤ a.1) s
    else List.insertionSort (fun a b => a.1 ≤ b.1) s

/-- Python list slicing `l[:n]` for an integer `n`: the first `n` elements
when `n ≥ 0`, everything but the last `|n|` elements when `n < 0`. -/
def pySlice (n : ℤ) (l : List (String × Grade)) : List (String × Grade) :=
  if 0 ≤ n then l.take n.toNat
  else l.take (l.length - (-n).toNat)

/-- `sort_and_display(by, top_n, reverse)` from `main.py`: returns nothing
on an empty store; otherwise sorts, then applies
`if top_n: sorted_list = sorted_list[:top_n]` (`None` and `0` are falsy),
and builds the displayed (name, grade, label) rows. -/
def sort_and_display (s : Store) (byKey : String) (top : Option ℤ)
    (rev : Bool) : List (String × Grade × String) :=
  if s = [] then []
  else
    let sortedList := sortedRows s byKey rev
    let sliced :=
      match top with
      | none => sortedList
      | some n => if n = 0 then sortedList else pySlice n sortedList
    sliced.map rowTriple

/-- `statistics.mean` on a list of grades: sum divided by length. -/
def meanQ (l : List Grade) : Grade :=
  l.sum / (l.length : Grade)

/-- `statistics.median` on a list of grades: sort; the middle element for an
odd count, the average of the two central elements for an even count. -/
def medianQ (l : List Grade) : Grade :=
  let d := List.insertionSort (fun a b => a ≤ b) l
  let n := d.length
  if n % 2 = 1 then d.getD (n / 2) 0
  else (d.getD (n / 2 - 1) 0 + d.getD (n / 2) 0) / 2

/-- Python `max` on a list of grades (0 on the empty list, which the caller
rules out). -/
def maxQ : List Grade → Grade
  | [] => 0
  | x :: t => t.foldl max x

/-- Python `min` on a list of grades (0 on the empty list, which the caller
rules out). -/
def minQ : List Grade → Grade
  | [] => 0
  | x :: t => t.foldl min x

/-- `show_statistics()` from `main.py`: `None` (a printed warning) on an
empty store; otherwise the printed (count, mean, median, max, min) of
`student_grades.values()`.  The program prints these values rounded to two
decimals; the full-precision values are modelled. -/
def show_statistics (s : Store) :
    Option (ℕ × Grade × Grade × Grade × Grade) :=
  if s = [] then none
  else
    let grades := s.map Prod.snd
    some (grades.length, meanQ grades, medianQ grades, maxQ grades, minQ grades)

/-- One data row of a CSV file as `import_csv` sees it through
`csv.DictReader`: `nameField` is `row.get("Name") or row.get("name")`
(`none` when the column is missing; Python would give `None`), and
`gradeField` is the grade cell as parsed by `float` (`none` when the cell is
missing or not numeric, in which case `validate_grade` fails). -/
structure CsvRow where
  nameField : Option String
  gradeField : Option Grade
  deriving DecidableEq, Repr

/-- The acceptance test of `import_csv` in `main.py`:
`if name and validate_grade(grade)` — the name cell must be present and
non-empty (Python truthiness) and the grade must validate. -/
def rowAccepted (row : CsvRow) : Bool :=
  match row.nameField with
  | none => false
  | some n => n != "" && validate_grade row.gradeField

/-- `import_csv(filename)` from `main.py`, with the file already parsed into
rows: the loop `for row in reader` assigns
`student_grades[name.strip()] = float(grade)` and increments `count` for
each accepted row, skipping the others; returns the final store and the
printed count of imported records. -/
def import_csv (s : Store) : List CsvRow → Store × ℕ
  | [] => (s, 0)
  | row :: rest =>
    if rowAccepted row then
      let r := import_csv
        (insertDict s (pyStrip (row.nameField.getD "")) (row.gradeField.getD 0)) rest
      (r.1, r.2 + 1)
    else import_csv s rest

/-- `export_csv(filename)` from `main.py`, seen at the row level: one CSV
row per store entry, name and grade written as they are (Python's float
formatting round-trips exactly, so the grade cell parses back to the same
number). -/
def export_rows (s : Store) : List CsvRow :=
  s.map (fun p => ⟨some p.1, some p.2⟩)

/-- `load_data(filename)` from `main.py`, with the JSON file already parsed
into key/value pairs: `student_grades = {k: float(v) for k, v in ...}`
replaces the store wholesale with the parsed mapping (later duplicate JSON
keys win, as in Python's JSON decoder).  No name or grade validation is
performed. -/
def load_data (j : List (String × Grade)) : Store :=
  j.foldl (fun acc p => insertDict acc p.1 p.2) []

/-- Store invariant, grade part: every stored grade lies in `[0, 100]`. -/
abbrev gradeInv (s : Store) : Prop :=
  ∀ p ∈ s, 0 ≤ p.2 ∧ p.2 ≤ 100

/-- Store invariant, key-trimming part: every key equals its own strip. -/
abbrev trimInv (s : Store) : Prop :=
  ∀ p ∈ s, pyStrip p.1 = p.1

/-- Store invariant, name part: every key is non-empty trimmed text. -/
abbrev nameInv (s : Store) : Prop :=
  ∀ p ∈ s, pyStrip p.1 = p.1 ∧ p.1 ≠ ""

/-- Numeric tier of a performance label, for stating monotonicity. -/
def tierOf (label : String) : ℕ :=
  if label = "Excellent" then 3
  else if label = "Good" then 2
  else if label = "Average" then 1
  else 0

/-- The 5-row CSV of the C5 example: rows B and D carry out-of-range
grades. -/
def csvExample : List CsvRow :=
  [⟨some "A", some 10⟩, ⟨some "B", some 150⟩, ⟨some "C", some 50⟩,
   ⟨some "D", some (-5)⟩, ⟨some "E", some 99⟩]

instance : IsTotal (String × Grade) (fun a b => a.2 ≤ b.2) :=
  ⟨fun a b => le_total a.2 b.2⟩

instance : IsTrans (String × Grade) (fun a b => a.2 ≤ b.2) :=
  ⟨fun _ _ _ h h' => le_trans h h'⟩

instance : IsTotal (String × Grade) (fun a b => b.2 ≤ a.2) :=
  ⟨fun a b => le_total b.2 a.2⟩

instance : IsTrans (String × Grade) (fun a b => b.2 ≤ a.2) :=
  ⟨fun _ _ _ h h' => le_trans h' h⟩

instance : IsTotal (String × Grade) (fun a b => a.1 ≤ b.1) :=
  ⟨fun a b => le_total a.1 b.1⟩

instance : IsTrans (String × Grade) (fun a b => a.1 ≤ b.1) :=
  ⟨fun _ _ _ h h' => le_trans h h'⟩

instance : IsTotal (String × Grade) (fun a b => b.1 ≤ a.1) :=
  ⟨fun a b => le_total b.1 a.1⟩

instance : IsTrans (String × Grade) (fun a b => b.1 ≤ a.1) :=
  ⟨fun _ _ _ h h' => le_trans h' h⟩

/-! ## Helper lemmas -/

/-- A prefix of a list that `dropWhile` leaves unchanged is itself left
unchanged by `dropWhile`. -/
theorem dropWhile_eq_self_of_pre {p : Char → Bool} {m A : List Char}
    (hpre : m <+: A) (hA : A.dropWhile p = A) : m.dropWhile p = m := by
  obtain ⟨t, rfl⟩ := hpre
  cases m with
  | nil => rfl
  | cons c m' =>
    by_cases hc : p c
    · exfalso
      rw [List.cons_append, List.dropWhile_cons_of_pos hc] at hA
      have hlen : (List.dropWhile p (m' ++ t)).length ≤ (m' ++ t).length :=
        (List.dropWhile_suffix p).length_le
      rw [hA] at hlen
      simp at hlen
    · rw [List.dropWhile_cons_of_neg hc]

/-- Stripping both ends of a character list is idempotent. -/
theorem stripList_idem (l : List Char) : stripList (stripList l) = stripList l := by
  unfold stripList
  have h1 : (l.dropWhile Char.isWhitespace).dropWhile Char.isWhitespace
      = l.dropWhile Char.isWhitespace := List.dropWhile_idempotent _ _
  have hpre : ((l.dropWhile Char.isWhitespace).rdropWhile Char.isWhitespace)
      <+: (l.dropWhile Char.isWhitespace) := List.rdropWhile_prefix _ _
  rw [dropWhile_eq_self_of_pre hpre h1, List.rdropWhile_idempotent]

/-- `str.strip()` is idempotent. -/
theorem pyStrip_idem (s : String) : pyStrip (pyStrip s) = pyStrip s := by
  simp [pyStrip, stripList_idem]

/-- Looking up the just-assigned key finds the just-assigned value. -/
theorem lookup_insertDict_self (s : Store) (k : String) (v : Grade) :
    (insertDict s k v).lookup k = some v := by
  induction s with
  | nil => simp [insertDict, List.lookup]
  | cons hd t ih =>
    obtain ⟨k', v'⟩ := hd
    by_cases h : k' = k
    · subst h
      simp [insertDict, List.lookup]
    · have hne : (k == k') = false := by
        simp [beq_iff_eq]
        exact fun hh => h hh.symm
      simp [insertDict, h, List.lookup, hne, ih]

/-- Dict assignment only touches the assigned key. -/
theorem lookup_insertDict_ne (s : Store) (k k' : String) (v : Grade)
    (h : k' ≠ k) : (insertDict s k v).lookup k' = s.lookup k' := by
  induction s with
  | nil =>
    simp [insertDict, List.lookup, beq_false_of_ne h]
  | cons hd t ih =>
    obtain ⟨k₀, v₀⟩ := hd
    by_cases h0 : k₀ = k
    · subst h0
      simp [insertDict, List.lookup, beq_false_of_ne h]
    · simp [insertDict, h0, List.lookup, ih]

/-- Dict assignment is idempotent. -/
theorem insertDict_idem (s : Store) (k : String) (v : Grade) :
    insertDict (insertDict s k v) k v = insertDict s k v := by
  induction s with
  | nil => simp [insertDict]
  | cons hd t ih =>
    obtain ⟨k₀, v₀⟩ := hd
    by_cases h0 : k₀ = k
    · subst h0
      simp [insertDict]
    · simp [insertDict, h0, ih]

/-- Every entry after a dict assignment is the assigned pair or an old
entry. -/
theorem mem_insertDict {s : Store} {k : String} {v : Grade} {p : String × Grade}
    (h : p ∈ insertDict s k v) : p = (k, v) ∨ p ∈ s := by
  induction s with
  | nil =>
    simp [insertDict] at h
    exact Or.inl h
  | cons hd t ih =>
    obtain ⟨k₀, v₀⟩ := hd
    by_cases h0 : k₀ = k
    · subst h0
      simp [insertDict] at h
      rcases h with h | h
      · exact Or.inl (by simp [h])
      · exact Or.inr (List.mem_cons_of_mem _ h)
    · simp [insertDict, h0] at h
      rcases h with h | h
      · exact Or.inr (by simp [h])
      · rcases ih h with h' | h'
        · exact Or.inl h'
        · exact Or.inr (List.mem_cons_of_mem _ h')

/-- A successful lookup exhibits a store entry. -/
theorem mem_of_lookup {s : Store} {k : String} {v : Grade}
    (h : s.lookup k = some v) : (k, v) ∈ s := by
  induction s with
  | nil => simp [List.lookup] at h
  | cons hd t ih =>
    obtain ⟨k₀, v₀⟩ := hd
    by_cases h0 : k == k₀
    · simp [List.lookup, h0] at h
      have : k = k₀ := by
        simpa [beq_iff_eq] using h0
      subst this
      simp [h]
    · simp [List.lookup, h0] at h
      exact List.mem_cons_of_mem _ (ih h)

/-- Assigning a fresh key appends the new entry. -/
theorem insertDict_not_mem (s : Store) (k : String) (v : Grade)
    (h : k ∉ s.map Prod.fst) : insertDict s k v = s ++ [(k, v)] := by
  induction s with
  | nil => simp [insertDict]
  | cons hd t ih =>
    obtain ⟨k₀, v₀⟩ := hd
    rw [List.map_cons] at h
    have h1 : k₀ ≠ k := fun hh => h (by simp [hh])
    have h2 : k ∉ t.map Prod.fst := fun hh => h (List.mem_cons_of_mem _ hh)
    simp [insertDict, h1, ih h2]

/-- With duplicate-free keys, filtering the store for the just-assigned key
yields exactly the assigned entry. -/
theorem filter_key_insertDict (s : Store) (k : String) (v : Grade)
    (hnd : (s.map Prod.fst).Nodup) :
    (insertDict s k v).filter (fun p => p.1 == k) = [(k, v)] := by
  induction s with
  | nil => simp [insertDict]
  | cons hd t ih =>
    obtain ⟨k₀, v₀⟩ := hd
    rw [List.map_cons] at hnd
    have hnm : k₀ ∉ t.map Prod.fst := (List.nodup_cons.mp hnd).1
    have hnd' : (t.map Prod.fst).Nodup := (List.nodup_cons.mp hnd).2
    by_cases h0 : k₀ = k
    · subst h0
      have hfilt : t.filter (fun p => p.1 == k₀) = [] := by
        apply List.filter_eq_nil_iff.mpr
        intro p hp hbeq
        have hpk : p.1 = k₀ := by simpa [beq_iff_eq] using hbeq
        exact absurd (hpk ▸ List.mem_map_of_mem Prod.fst hp) hnm
      simp [insertDict, List.filter_cons, hfilt]
    · have hne : (k₀ == k) = false := beq_false_of_ne h0
      simp [insertDict, h0, List.filter_cons, hne, ih hnd']

/-- A name that validates is non-empty. -/
theorem validate_name_ne {n : String} (h : validate_name n = true) : n ≠ "" := by
  unfold validate_name at h
  by_cases h1 : n = ""
  · rw [if_pos h1] at h
    exact absurd h (by simp)
  · exact h1

/-- A grade that validates is a number in `[0, 100]`. -/
theorem validate_grade_some {g? : Option Grade} (h : validate_grade g? = true) :
    ∃ g, g? = some g ∧ 0 ≤ g ∧ g ≤ 100 := by
  cases g? with
  | none => simp [validate_grade] at h
  | some g =>
    refine ⟨g, rfl, ?_⟩
    by_cases hc : 0 ≤ g ∧ g ≤ 100
    · exact hc
    · simp [validate_grade, hc] at h

/-- An accepted CSV row has a present non-empty name cell and a valid
grade. -/
theorem rowAccepted_true {row : CsvRow} (h : rowAccepted row = true) :
    ∃ n, row.nameField = some n ∧ n ≠ "" ∧
      validate_grade row.gradeField = true := by
  cases hrow : row.nameField with
  | none => rw [rowAccepted, hrow] at h; exact absurd h (by simp)
  | some n =>
    rw [rowAccepted, hrow] at h
    rw [Bool.and_eq_true] at h
    refine ⟨n, rfl, ?_, h.2⟩
    simpa using h.1

/-- `import_csv` keeps all grades in range and all keys trimmed. -/
theorem import_preserves (rows : List CsvRow) :
    ∀ s : Store, gradeInv s → trimInv s →
      gradeInv (import_csv s rows).1 ∧ trimInv (import_csv s rows).1 := by
  induction rows with
  | nil => intro s hg ht; exact ⟨hg, ht⟩
  | cons row rest ih =>
    intro s hg ht
    by_cases hacc : rowAccepted row = true
    · obtain ⟨n, hn, _, hgr⟩ := rowAccepted_true hacc
      obtain ⟨g, hgeq, hg0, hg1⟩ := validate_grade_some hgr
      have hstep : import_csv s (row :: rest)
          = ((import_csv (insertDict s (pyStrip n) g) rest).1,
             (import_csv (insertDict s (pyStrip n) g) rest).2 + 1) := by
        simp [import_csv, hacc, hn, hgeq]
      rw [hstep]
      refine ih (insertDict s (pyStrip n) g) ?_ ?_
      · intro p hp
        rcases mem_insertDict hp with h | h
        · rw [h]; exact ⟨hg0, hg1⟩
        · exact hg p h
      · intro p hp
        rcases mem_insertDict hp with h | h
        · rw [h]; exact pyStrip_idem n
        · exact ht p h
    · have hacc' : rowAccepted row = false := by simpa using hacc
      simp only [import_csv, hacc', Bool.false_eq_true, if_false]
      exact ih s hg ht

/-- A list splits into the rows a predicate keeps and the rows it
rejects. -/
theorem filter_length_split (p : CsvRow → Bool) (rows : List CsvRow) :
    (rows.filter p).length + (rows.filter (fun r => !p r)).length
      = rows.length := by
  induction rows with
  | nil => rfl
  | cons r rest ih =>
    by_cases h : p r <;> simp [List.filter_cons, h] <;> omega

/-- The sorted list of an empty store is empty. -/
theorem sortedRows_nil (byKey : String) (rev : Bool) :
    sortedRows [] byKey rev = [] := by
  unfold sortedRows
  split_ifs <;> rfl

/-- `foldl max` computes an element of the list that bounds the list from
above. -/
theorem foldl_max_spec (t : List Grade) (x : Grade) :
    t.foldl max x ∈ x :: t ∧ ∀ g ∈ x :: t, g ≤ t.foldl max x := by
  induction t generalizing x with
  | nil => simp
  | cons y t ih =>
    have h := ih (max x y)
    rw [List.foldl_cons]
    constructor
    · rcases List.mem_cons.mp h.1 with hm | hm
      · rcases max_choice x y with hxy | hxy <;> rw [hm, hxy] <;> simp
      · exact List.mem_cons_of_mem _ (List.mem_cons_of_mem _ hm)
    · intro g hg
      rcases List.mem_cons.mp hg with rfl | hg'
      · exact le_trans (le_max_left g y) (h.2 _ (List.mem_cons_self _ _))
      · rcases List.mem_cons.mp hg' with rfl | hg''
        · exact le_trans (le_max_right x g) (h.2 _ (List.mem_cons_self _ _))
        · exact h.2 g (List.mem_cons_of_mem _ hg'')

/-- `foldl min` computes an element of the list that bounds the list from
below. -/
theorem foldl_min_spec (t : List Grade) (x : Grade) :
    t.foldl min x ∈ x :: t ∧ ∀ g ∈ x :: t, t.foldl min x ≤ g := by
  induction t generalizing x with
  | nil => simp
  | cons y t ih =>
    have h := ih (min x y)
    rw [List.foldl_cons]
    constructor
    · rcases List.mem_cons.mp h.1 with hm | hm
      · rcases min_choice x y with hxy | hxy <;> rw [hm, hxy] <;> simp
      · exact List.mem_cons_of_mem _ (List.mem_cons_of_mem _ hm)
    · intro g hg
      rcases List.mem_cons.mp hg with rfl | hg'
      · exact le_trans (h.2 _ (List.mem_cons_self _ _)) (min_le_left g y)
      · rcases List.mem_cons.mp hg' with rfl | hg''
        · exact le_trans (h.2 _ (List.mem_cons_self _ _)) (min_le_right x g)
        · exact h.2 g (List.mem_cons_of_mem _ hg'')

/-- `maxQ` of a non-empty list is its greatest element. -/
theorem maxQ_spec (l : List Grade) (h : l ≠ []) :
    maxQ l ∈ l ∧ ∀ g ∈ l, g ≤ maxQ l := by
  cases l with
  | nil => exact absurd rfl h
  | cons x t => simpa [maxQ] using foldl_max_spec t x

/-- `minQ` of a non-empty list is its least element. -/
theorem minQ_spec (l : List Grade) (h : l ≠ []) :
    minQ l ∈ l ∧ ∀ g ∈ l, minQ l ≤ g := by
  cases l with
  | nil => exact absurd rfl h
  | cons x t => simpa [minQ] using foldl_min_spec t x

/-- `tierOf` of a computed label as a four-way case split on the grade. -/
theorem tier_eval (g : Grade) :
    tierOf (evaluate_performance g)
      = if g ≥ 90 then 3 else if g ≥ 75 then 2 else if g ≥ 50 then 1 else 0 := by
  unfold evaluate_performance
  split_ifs <;> decide

/-! ## Claims -/

/-- C2: for every grade in `[0,100]`, `evaluate_performance` returns
`Excellent` iff the grade is at least 90, `Good` iff it is in `[75, 90)`,
`Average` iff it is in `[50, 75)`, and `Needs Improvement` (the program's
spelling of the NeedsImprovement label) iff it is below 50; the boundary
inputs 90, 89.999, 75, 74.999, 50, 49.999 get the stated labels, and the
tier is monotone non-decreasing in the grade. -/
theorem evaluate_performance_spec :
    (∀ g : Grade, 0 ≤ g → g ≤ 100 →
      ((evaluate_performance g = "Excellent" ↔ g ≥ 90) ∧
       (evaluate_performance g = "Good" ↔ 75 ≤ g ∧ g < 90) ∧
       (evaluate_performance g = "Average" ↔ 50 ≤ g ∧ g < 75) ∧
       (evaluate_performance g = "Needs Improvement" ↔ g < 50))) ∧
    (∀ g₁ g₂ : Grade, g₁ ≤ g₂ →
      tierOf (evaluate_performance g₁) ≤ tierOf (evaluate_performance g₂)) ∧
    evaluate_performance 90 = "Excellent" ∧
    evaluate_performance ((89999 : Grade) / 1000) = "Good" ∧
    evaluate_performance 75 = "Good" ∧
    evaluate_performance ((74999 : Grade) / 1000) = "Average" ∧
    evaluate_performance 50 = "Average" ∧
    evaluate_performance ((49999 : Grade) / 1000) = "Needs Improvement" := by
  refine ⟨?_, ?_, by norm_num [evaluate_performance], by norm_num [evaluate_performance],
    by norm_num [evaluate_performance], by norm_num [evaluate_performance],
    by norm_num [evaluate_performance], by norm_num [evaluate_performance]⟩
  · intro g _ _
    unfold evaluate_performance
    split_ifs with h1 h2 h3 <;>
      refine ⟨?_, ?_, ?_, ?_⟩ <;> constructor <;> intro hh <;>
      first
        | rfl
        | assumption
        | exact absurd hh (by decide)
        | exact ⟨by linarith, by linarith⟩
        | (exfalso; linarith [hh.1, hh.2])
        | (exfalso; linarith)
        | linarith
  · intro g₁ g₂ h
    rw [tier_eval, tier_eval]
    split_ifs <;> first | (exfalso; linarith) | norm_num

/-- C2 witness: the theorem applied at grade 92 and at the pair 60 ≤ 80. -/
theorem evaluate_performance_spec_witness :
    (evaluate_performance 92 = "Excellent" ↔ (92 : Grade) ≥ 90) ∧
    tierOf (evaluate_performance 60) ≤ tierOf (evaluate_performance 80) :=
  ⟨(evaluate_performance_spec.1 92 (by norm_num) (by norm_num)).1,
   evaluate_performance_spec.2.1 60 80 (by norm_num)⟩

/-- C6: `add_student` with an invalid name reports `invalidName` and leaves
the store untouched; with a valid name and an invalid grade it reports
`invalidGrade` and leaves the store untouched; `delete_student` of an
absent name reports `notFound` and leaves the store (and in particular its
cardinality) untouched. -/
theorem error_leaves_store_unchanged (s : Store) (name : String)
    (grade : Option Grade) :
    (validate_name (pyStrip name) = false →
      add_student s name grade = (s, OpResult.invalidName)) ∧
    (validate_name (pyStrip name) = true → validate_grade grade = false →
      add_student s name grade = (s, OpResult.invalidGrade)) ∧
    (s.lookup (pyStrip name) = none →
      delete_student s name = (s, OpResult.notFound) ∧
      (delete_student s name).1.length = s.length) := by
  refine ⟨?_, ?_, ?_⟩
  · intro h
    simp [add_student, h]
  · intro h1 h2
    simp [add_student, h1, h2]
  · intro h
    have h' : (s.lookup (pyStrip name)).isSome = false := by
      rw [h]; rfl
    constructor <;> simp [delete_student, h']

/-- C6 witness: the theorem applied to a one-entry store, a whitespace-only
name, and an absent name. -/
theorem error_leaves_store_unchanged_witness :
    (add_student [("Bob", 50)] " " (some 12)
      = ([("Bob", 50)], OpResult.invalidName)) ∧
    (add_student [("Bob", 50)] "Amy" (some 200)
      = ([("Bob", 50)], OpResult.invalidGrade)) ∧
    (delete_student [("Bob", 50)] "Amy"
      = ([("Bob", 50)], OpResult.notFound)) :=
  ⟨(error_leaves_store_unchanged [("Bob", 50)] " " (some 12)).1 (by decide),
   (error_leaves_store_unchanged [("Bob", 50)] "Amy" (some 200)).2.1
     (by decide) (by decide),
   ((error_leaves_store_unchanged [("Bob", 50)] "Amy" (some 200)).2.2
     (by decide)).1⟩

/-- C9: a query that is empty or whitespace-only strips to the empty
string, which is contained in every lower-cased name, so `search_student`
returns the (name, grade, label) row of every store entry. -/
theorem search_empty_query (s : Store) (q : String) (h : pyStrip q = "") :
    search_student s q = s.map rowTriple := by
  unfold search_student
  rw [h]
  have hall : ∀ p ∈ s,
      (fun p : String × Grade =>
        decide ((pyLower "").data <:+: (pyLower p.1).data)) p = true := by
    intro p _
    have hdata : (pyLower "").data = [] := rfl
    rw [hdata]
    simp
  rw [List.filter_eq_self.mpr hall]

/-- C9 witness: the theorem applied to a two-entry store and a whitespace
query. -/
theorem search_empty_query_witness :
    search_student [("Amy", 90), ("Bob", 70)] "  "
      = ([("Amy", 90), ("Bob", 70)] : Store).map rowTriple :=
  search_empty_query [("Amy", 90), ("Bob", 70)] "  " (by decide)

/-- C10: `update_student` on a name whose stripped form is not a key
reports `notFound` and leaves the store unchanged, whatever the grade
argument is; it never creates an entry. -/
theorem update_student_not_found (s : Store) (name : String)
    (grade : Option Grade) (h : s.lookup (pyStrip name) = none) :
    update_student s name grade = (s, OpResult.notFound) := by
  simp [update_student, h]

/-- C10 witness: the theorem applied to a one-entry store, an absent name
and an out-of-range grade. -/
theorem update_student_not_found_witness :
    update_student [("Bob", 50)] "Amy" (some 200)
      = ([("Bob", 50)], OpResult.notFound) :=
  update_student_not_found [("Bob", 50)] "Amy" (some 200) (by decide)

/-- C3: for a valid name and a grade in range (and a store with
duplicate-free keys, as every reachable store has), `add_student` succeeds,
afterwards exactly one entry carries the trimmed name and it holds the
given grade (last-write-wins), and repeating the same call leaves the store
unchanged. -/
theorem add_student_spec (s : Store) (name : String) (g : Grade)
    (hnd : (s.map Prod.fst).Nodup)
    (hname : validate_name (pyStrip name) = true)
    (h0 : 0 ≤ g) (h1 : g ≤ 100) :
    (add_student s name (some g)).2 = OpResult.ok ∧
    (add_student s name (some g)).1.filter (fun p => p.1 == pyStrip name)
      = [(pyStrip name, g)] ∧
    (add_student s name (some g)).1.lookup (pyStrip name) = some g ∧
    add_student (add_student s name (some g)).1 name (some g)
      = add_student s name (some g) := by
  have hg : validate_grade (some g) = true := by
    simp [validate_grade, h0, h1]
  have hadd : add_student s name (some g)
      = (insertDict s (pyStrip name) g, .ok) := by
    simp [add_student, hname, hg]
  rw [hadd]
  refine ⟨rfl, ?_, ?_, ?_⟩
  · exact filter_key_insertDict s (pyStrip name) g hnd
  · exact lookup_insertDict_self s (pyStrip name) g
  · have hadd2 : add_student (insertDict s (pyStrip name) g) name (some g)
        = (insertDict (insertDict s (pyStrip name) g) (pyStrip name) g, .ok) := by
      simp [add_student, hname, hg]
    rw [hadd2, insertDict_idem]

/-- C3 witness: the theorem applied to a one-entry store and the padded
name " Amy ". -/
theorem add_student_spec_witness :
    (add_student [("Bob", 50)] " Amy " (some 95)).2 = OpResult.ok ∧
    (add_student [("Bob", 50)] " Amy " (some 95)).1.filter
      (fun p => p.1 == pyStrip " Amy ") = [(pyStrip " Amy ", 95)] ∧
    (add_student [("Bob", 50)] " Amy " (some 95)).1.lookup (pyStrip " Amy ")
      = some 95 ∧
    add_student (add_student [("Bob", 50)] " Amy " (some 95)).1 " Amy " (some 95)
      = add_student [("Bob", 50)] " Amy " (some 95) :=
  add_student_spec [("Bob", 50)] " Amy " 95 (by decide) (by decide)
    (by norm_num) (by norm_num)

/-- C1 counterexample: `load_data` stores the out-of-range grade 150
unchanged, and `import_csv` turns a whitespace-only name cell into the
empty-string key; so not every mutating operation enforces the grade-range
and non-empty-trimmed-name invariant. -/
theorem store_invariant_counterexample :
    ("x", (150 : Grade)) ∈ load_data [("x", 150)] ∧
    ¬ ((150 : Grade) ≤ 100) ∧
    ("", (50 : Grade)) ∈ (import_csv [] [⟨some " ", some 50⟩]).1 := by
  refine ⟨?_, by norm_num, ?_⟩
  · simp [load_data, insertDict]
  · decide

/-- C1 amended: `add_student` and `update_student` do preserve the full
invariant (grades in `[0,100]`, keys non-empty trimmed); `import_csv`
preserves the grade range and key trimmedness (but, per the
counterexample, can insert an empty key from a whitespace-only name cell);
`load_data` validates nothing. -/
theorem mutation_invariants (s : Store) (name : String)
    (grade : Option Grade) (rows : List CsvRow) :
    (gradeInv s → nameInv s →
      gradeInv (add_student s name grade).1 ∧
      nameInv (add_student s name grade).1) ∧
    (gradeInv s → nameInv s →
      gradeInv (update_student s name grade).1 ∧
      nameInv (update_student s name grade).1) ∧
    (gradeInv s → trimInv s →
      gradeInv (import_csv s rows).1 ∧ trimInv (import_csv s rows).1) := by
  refine ⟨?_, ?_, ?_⟩
  · intro hg hn
    by_cases hname : validate_name (pyStrip name) = true
    · by_cases hgr : validate_grade grade = true
      · obtain ⟨g, hgeq, hg0, hg1⟩ := validate_grade_some hgr
        have hgrs : validate_grade (some g) = true := hgeq ▸ hgr
        have hadd : add_student s name grade
            = (insertDict s (pyStrip name) g, .ok) := by
          simp [add_student, hname, hgeq, hgrs]
        rw [hadd]
        constructor
        · intro p hp
          rcases mem_insertDict hp with h | h
          · rw [h]; exact ⟨hg0, hg1⟩
          · exact hg p h
        · intro p hp
          rcases mem_insertDict hp with h | h
          · rw [h]
            exact ⟨pyStrip_idem name, validate_name_ne hname⟩
          · exact hn p h
      · have hgr' : validate_grade grade = false := by simpa using hgr
        have heq : add_student s name grade = (s, .invalidGrade) := by
          simp [add_student, hname, hgr']
        rw [heq]
        exact ⟨hg, hn⟩
    · have hname' : validate_name (pyStrip name) = false := by simpa using hname
      have heq : add_student s name grade = (s, .invalidName) := by
        simp [add_student, hname']
      rw [heq]
      exact ⟨hg, hn⟩
  · intro hg hn
    cases hlk : (s.lookup (pyStrip name)) with
    | none =>
      have heq : update_student s name grade = (s, .notFound) := by
        simp [update_student, hlk]
      rw [heq]
      exact ⟨hg, hn⟩
    | some v =>
      by_cases hgr : validate_grade grade = true
      · obtain ⟨g, hgeq, hg0, hg1⟩ := validate_grade_some hgr
        have hmem : (pyStrip name, v) ∈ s := mem_of_lookup hlk
        have hgrs : validate_grade (some g) = true := hgeq ▸ hgr
        have hupd : update_student s name grade
            = (insertDict s (pyStrip name) g, .ok) := by
          simp [update_student, hlk, hgeq, hgrs]
        rw [hupd]
        constructor
        · intro p hp
          rcases mem_insertDict hp with h | h
          · rw [h]; exact ⟨hg0, hg1⟩
          · exact hg p h
        · intro p hp
          rcases mem_insertDict hp with h | h
          · rw [h]
            exact hn (pyStrip name, v) hmem
          · exact hn p h
      · have hgr' : validate_grade grade = false := by simpa using hgr
        have heq : update_student s name grade = (s, .invalidGrade) := by
          simp [update_student, hlk, hgr']
        rw [heq]
        exact ⟨hg, hn⟩
  · exact fun hg ht => import_preserves rows s hg ht

/-- C1 amended witness: the theorem applied to the empty store, a valid
add, and a two-row import. -/
theorem mutation_invariants_witness :
    gradeInv (add_student [] "Amy" (some 90)).1 ∧
    nameInv (add_student [] "Amy" (some 90)).1 :=
  (mutation_invariants [] "Amy" (some 90) []).1
    (by intro p hp; simp at hp) (by intro p hp; simp at hp)

/-- C5: `import_csv` is total (it never raises): the reported count is the
number of rows passing the acceptance test, accepted plus skipped rows
account for every row, the final store is the fold of the accepted
insertions (skipped rows touch nothing), and on the 5-row example with 2
out-of-range grades it accepts exactly 3, leaving 2 skipped. -/
theorem import_csv_spec (s : Store) (rows : List CsvRow) :
    (import_csv s rows).2 = (rows.filter rowAccepted).length ∧
    (import_csv s rows).2 + (rows.filter (fun r => !rowAccepted r)).length
      = rows.length ∧
    (import_csv s rows).1 =
      (rows.filter rowAccepted).foldl
        (fun st row =>
          insertDict st (pyStrip (row.nameField.getD ""))
            (row.gradeField.getD 0)) s ∧
    import_csv [] csvExample = ([("A", 10), ("C", 50), ("E", 99)], 3) ∧
    csvExample.length = 5 ∧
    csvExample.length - (import_csv [] csvExample).2 = 2 := by
  have key : ∀ (rows : List CsvRow) (s : Store),
      (import_csv s rows).2 = (rows.filter rowAccepted).length ∧
      (import_csv s rows).1 =
        (rows.filter rowAccepted).foldl
          (fun st row =>
            insertDict st (pyStrip (row.nameField.getD ""))
              (row.gradeField.getD 0)) s := by
    intro rows
    induction rows with
    | nil => intro s; simp [import_csv]
    | cons row rest ih =>
      intro s
      by_cases hacc : rowAccepted row = true
      · obtain ⟨n, hn, _, _⟩ := rowAccepted_true hacc
        have h1 := (ih (insertDict s (pyStrip n) (row.gradeField.getD 0))).1
        have h2 := (ih (insertDict s (pyStrip n) (row.gradeField.getD 0))).2
        constructor
        · simp [import_csv, hacc, hn, List.filter_cons, h1]
        · simp [import_csv, hacc, hn, List.filter_cons, h2]
      · have hacc' : rowAccepted row = false := by simpa using hacc
        constructor
        · simp [import_csv, hacc', List.filter_cons, (ih s).1]
        · simp [import_csv, hacc', List.filter_cons, (ih s).2]
  refine ⟨(key rows s).1, ?_, (key rows s).2, by decide, by decide, by decide⟩
  rw [(key rows s).1]
  exact filter_length_split rowAccepted rows

/-- C7 counterexample: on a two-entry store, `sort_and_display` with
`top_n = -1` produces one row, not the full sorted list of two rows —
`if top_n:` is truthy for `-1` and Python `list[:-1]` drops the final
element, so "n ≤ 0 means all" fails for negative n. -/
theorem sort_top_counterexample :
    sort_and_display [("A", (50 : Grade)), ("B", 60)] "grade" (some (-1)) true
      = [("B", 60, "Average")] ∧
    sort_and_display [("A", (50 : Grade)), ("B", 60)] "grade" none true
      = [("B", 60, "Average"), ("A", 50, "Average")] := by
  constructor <;> decide

/-- C7 amended: `sort_and_display` sorts by the given key and order (the
sorted list is a sorted permutation of the store) and then truncates: an
absent `top_n` or `top_n = 0` yields the full sorted list, a positive `n`
yields its first `n` entries, and a negative `n` yields all but its last
`|n|` entries (Python slice semantics), rather than the full list. -/
theorem sort_top_spec (s : Store) (byKey : String) (rev : Bool) (n : ℤ) :
    sort_and_display s byKey none rev = (sortedRows s byKey rev).map rowTriple ∧
    sort_and_display s byKey (some 0) rev
      = (sortedRows s byKey rev).map rowTriple ∧
    (n ≠ 0 → sort_and_display s byKey (some n) rev
        = (pySlice n (sortedRows s byKey rev)).map rowTriple) ∧
    (0 ≤ n → pySlice n (sortedRows s byKey rev)
        = (sortedRows s byKey rev).take n.toNat) ∧
    (n < 0 → pySlice n (sortedRows s byKey rev)
        = (sortedRows s byKey rev).take
            ((sortedRows s byKey rev).length - (-n).toNat)) ∧
    (sortedRows s byKey rev).Perm s ∧
    (byKey = "grade" →
      (rev = true → (sortedRows s byKey rev).Sorted (fun a b => b.2 ≤ a.2)) ∧
      (rev = false → (sortedRows s byKey rev).Sorted (fun a b => a.2 ≤ b.2))) ∧
    (byKey ≠ "grade" →
      (rev = true → (sortedRows s byKey rev).Sorted (fun a b => b.1 ≤ a.1)) ∧
      (rev = false → (sortedRows s byKey rev).Sorted (fun a b => a.1 ≤ b.1))) := by
  refine ⟨?_, ?_, ?_, ?_, ?_, ?_, ?_, ?_⟩
  · by_cases hs : s = []
    · subst hs
      simp [sort_and_display, sortedRows_nil]
    · simp [sort_and_display, hs]
  · by_cases hs : s = []
    · subst hs
      simp [sort_and_display, sortedRows_nil]
    · simp [sort_and_display, hs]
  · intro hn
    by_cases hs : s = []
    · subst hs
      simp [sort_and_display, sortedRows_nil, pySlice]
    · simp [sort_and_display, hs, hn]
  · intro hn
    simp [pySlice, hn]
  · intro hn
    have hn' : ¬ (0 ≤ n) := by omega
    simp [pySlice, hn']
  · unfold sortedRows
    split_ifs <;> exact List.perm_insertionSort _ _
  · intro hb
    subst hb
    constructor
    · intro hr
      subst hr
      have he : sortedRows s "grade" true
          = List.insertionSort (fun a b => b.2 ≤ a.2) s := by
        unfold sortedRows
        rw [if_pos rfl, if_pos rfl]
      rw [he]
      exact List.sorted_insertionSort _ _
    · intro hr
      subst hr
      have he : sortedRows s "grade" false
          = List.insertionSort (fun a b => a.2 ≤ b.2) s := by
        unfold sortedRows
        rw [if_pos rfl, if_neg Bool.false_ne_true]
      rw [he]
      exact List.sorted_insertionSort _ _
  · intro hb
    constructor
    · intro hr
      subst hr
      have he : sortedRows s byKey true
          = List.insertionSort (fun a b => b.1 ≤ a.1) s := by
        unfold sortedRows
        rw [if_neg hb, if_pos rfl]
      rw [he]
      exact List.sorted_insertionSort _ _
    · intro hr
      subst hr
      have he : sortedRows s byKey false
          = List.insertionSort (fun a b => a.1 ≤ b.1) s := by
        unfold sortedRows
        rw [if_neg hb, if_neg Bool.false_ne_true]
      rw [he]
      exact List.sorted_insertionSort _ _

/-- C7 amended witness: the theorem applied to a two-entry store with
`top_n = 1`, by grade, descending. -/
theorem sort_top_spec_witness :
    (sort_and_display [("A", (50 : Grade)), ("B", 60)] "grade" (some 1) true
      = (pySlice 1
          (sortedRows [("A", (50 : Grade)), ("B", 60)] "grade" true)).map
          rowTriple) ∧
    (sortedRows [("A", (50 : Grade)), ("B", 60)] "grade" true).Sorted
      (fun a b => b.2 ≤ a.2) :=
  ⟨(sort_top_spec [("A", (50 : Grade)), ("B", 60)] "grade" true 1).2.2.1
      (by norm_num),
   ((sort_top_spec [("A", (50 : Grade)), ("B", 60)] "grade" true 1).2.2.2.2.2.2.1
      rfl).1 rfl⟩

/-- C4: `show_statistics` reports nothing exactly on the empty store; on a
non-empty store the reported tuple is the record count, the arithmetic mean
(characterised by mean × count = sum), the greatest and least stored grade,
and the standard median (middle of a sorted permutation of the grades, the
average of the two central values for even counts); on the store
{60, 70, 80} it reports count 3, mean 70, median 70, max 80, min 60. -/
theorem show_statistics_spec :
    (∀ s : Store, show_statistics s = none ↔ s = []) ∧
    (∀ (s : Store) (n : ℕ) (avg med mx mn : Grade),
      show_statistics s = some (n, avg, med, mx, mn) →
        n = s.length ∧
        avg * (n : Grade) = (s.map Prod.snd).sum ∧
        (mx ∈ s.map Prod.snd ∧ ∀ g ∈ s.map Prod.snd, g ≤ mx) ∧
        (mn ∈ s.map Prod.snd ∧ ∀ g ∈ s.map Prod.snd, mn ≤ g) ∧
        (∃ d : List Grade, d.Perm (s.map Prod.snd) ∧
          d.Sorted (fun a b => a ≤ b) ∧
          med = (if d.length % 2 = 1 then d.getD (d.length / 2) 0
                 else (d.getD (d.length / 2 - 1) 0 + d.getD (d.length / 2) 0) / 2))) ∧
    show_statistics [("A", 60), ("B", 70), ("C", 80)]
      = some (3, 70, 70, 80, 60) := by
  refine ⟨?_, ?_, ?_⟩
  · intro s
    by_cases hs : s = [] <;> simp [show_statistics, hs]
  · intro s n avg med mx mn h
    by_cases hs : s = []
    · subst hs
      simp [show_statistics] at h
    · unfold show_statistics at h
      rw [if_neg hs] at h
      simp only [Option.some.injEq, Prod.mk.injEq] at h
      obtain ⟨hn, havg, hmed, hmx, hmn⟩ := h
      have hl : s.map Prod.snd ≠ [] := fun hh => hs (List.map_eq_nil_iff.mp hh)
      have hlen : ((s.map Prod.snd).length : Grade) ≠ 0 := by
        have h1 : 0 < (s.map Prod.snd).length := List.length_pos.mpr hl
        have h2 : (s.map Prod.snd).length ≠ 0 := Nat.pos_iff_ne_zero.mp h1
        exact_mod_cast h2
      refine ⟨?_, ?_, ?_, ?_, ?_⟩
      · rw [← hn, List.length_map]
      · rw [← havg, ← hn]
        unfold meanQ
        exact div_mul_cancel₀ _ hlen
      · rw [← hmx]
        exact maxQ_spec _ hl
      · rw [← hmn]
        exact minQ_spec _ hl
      · refine ⟨List.insertionSort (fun a b => a ≤ b) (s.map Prod.snd),
          List.perm_insertionSort _ _, List.sorted_insertionSort _ _, ?_⟩
        rw [← hmed]
        rfl
  · show show_statistics [("A", 60), ("B", 70), ("C", 80)]
      = some (3, 70, 70, 80, 60)
    have hsort : List.insertionSort (fun a b : Grade => a ≤ b) [60, 70, 80]
        = [60, 70, 80] := by
      norm_num [List.insertionSort, List.orderedInsert]
    have hmean : meanQ [60, 70, 80] = 70 := by
      unfold meanQ
      norm_num
    have hmed : medianQ [60, 70, 80] = 70 := by
      unfold medianQ
      rw [hsort]
      norm_num
    have hmax : maxQ [60, 70, 80] = 80 := by
      unfold maxQ
      norm_num [List.foldl, max_def]
    have hmin : minQ [60, 70, 80] = 60 := by
      unfold minQ
      norm_num [List.foldl, min_def]
    unfold show_statistics
    rw [if_neg (by simp)]
    simp only [List.map_cons, List.map_nil]
    rw [hmean, hmed, hmax, hmin]
    rfl

/-- C4 witness: the characterisation applied to the store {60, 70, 80},
with its hypothesis discharged by the concrete evaluation. -/
theorem show_statistics_spec_witness :
    (3 : ℕ) = ([("A", (60 : Grade)), ("B", 70), ("C", 80)] : Store).length ∧
    (70 : Grade) * ((3 : ℕ) : Grade)
      = (([("A", (60 : Grade)), ("B", 70), ("C", 80)] : Store).map Prod.snd).sum ∧
    ((80 : Grade) ∈ ([("A", (60 : Grade)), ("B", 70), ("C", 80)] : Store).map Prod.snd ∧
      ∀ g ∈ ([("A", (60 : Grade)), ("B", 70), ("C", 80)] : Store).map Prod.snd,
        g ≤ (80 : Grade)) ∧
    ((60 : Grade) ∈ ([("A", (60 : Grade)), ("B", 70), ("C", 80)] : Store).map Prod.snd ∧
      ∀ g ∈ ([("A", (60 : Grade)), ("B", 70), ("C", 80)] : Store).map Prod.snd,
        (60 : Grade) ≤ g) ∧
    (∃ d : List Grade,
      d.Perm (([("A", (60 : Grade)), ("B", 70), ("C", 80)] : Store).map Prod.snd) ∧
      d.Sorted (fun a b => a ≤ b) ∧
      (70 : Grade) = (if d.length % 2 = 1 then d.getD (d.length / 2) 0
             else (d.getD (d.length / 2 - 1) 0 + d.getD (d.length / 2) 0) / 2)) :=
  show_statistics_spec.2.1 [("A", 60), ("B", 70), ("C", 80)] 3 70 70 80 60
    show_statistics_spec.2.2

/-- C8: exporting a store whose keys are non-empty trimmed names and whose
grades are in range (as every reachable store built by validated mutations
is), then importing the rows into an empty store, reproduces exactly the
same name→grade mapping and accepts every row.  (Numeric round-trip is
exact: Python float formatting reparses to the same value.) -/
theorem export_import_roundtrip (s : Store)
    (hnd : (s.map Prod.fst).Nodup) (hn : nameInv s) (hg : gradeInv s) :
    import_csv [] (export_rows s) = (s, s.length) := by
  have key : ∀ (s2 : Store), (s2.map Prod.fst).Nodup → nameInv s2 →
      gradeInv s2 → ∀ acc : Store,
      (∀ k ∈ s2.map Prod.fst, k ∉ acc.map Prod.fst) →
      import_csv acc (export_rows s2) = (acc ++ s2, s2.length) := by
    intro s2
    induction s2 with
    | nil =>
      intro _ _ _ acc _
      simp [export_rows, import_csv]
    | cons hd t ih =>
      intro hnd2 hn2 hg2 acc hdisj
      obtain ⟨k, v⟩ := hd
      have hk : k ≠ "" := (hn2 (k, v) (List.mem_cons_self _ _)).2
      have hkt : pyStrip k = k := (hn2 (k, v) (List.mem_cons_self _ _)).1
      have hv := hg2 (k, v) (List.mem_cons_self _ _)
      have hacc : rowAccepted ⟨some k, some v⟩ = true := by
        simp [rowAccepted, validate_grade, hv.1, hv.2, hk]
      have hknotin : k ∉ acc.map Prod.fst := hdisj k (by simp)
      have hrow : export_rows ((k, v) :: t)
          = CsvRow.mk (some k) (some v) :: export_rows t := by
        simp [export_rows]
      have hstep : import_csv acc (CsvRow.mk (some k) (some v) :: export_rows t)
          = ((import_csv (insertDict acc (pyStrip k) v) (export_rows t)).1,
             (import_csv (insertDict acc (pyStrip k) v) (export_rows t)).2 + 1) := by
        simp [import_csv, hacc]
      have hins : insertDict acc k v = acc ++ [(k, v)] :=
        insertDict_not_mem acc k v hknotin
      have hknott : k ∉ t.map Prod.fst := by
        rw [List.map_cons] at hnd2
        exact (List.nodup_cons.mp hnd2).1
      have hih := ih
        (by rw [List.map_cons] at hnd2; exact (List.nodup_cons.mp hnd2).2)
        (fun p hp => hn2 p (List.mem_cons_of_mem _ hp))
        (fun p hp => hg2 p (List.mem_cons_of_mem _ hp))
        (acc ++ [(k, v)])
        (by
          intro k2 hk2
          rw [List.map_append]
          intro hmem
          rcases List.mem_append.mp hmem with hmem | hmem
          · exact hdisj k2 (List.mem_cons_of_mem _ hk2) hmem
          · simp at hmem
            subst hmem
            exact hknott hk2)
      rw [hrow, hstep, hkt, hins, hih]
      simp
  have h := key s hnd hn hg [] (by simp)
  simpa using h

/-- C8 witness: the round-trip applied to a concrete two-entry store. -/
theorem export_import_roundtrip_witness :
    import_csv [] (export_rows [("Amy", (90 : Grade)), ("Bob", 70)])
      = ([("Amy", 90), ("Bob", 70)], 2) :=
  export_import_roundtrip [("Amy", 90), ("Bob", 70)] (by decide) (by decide)
    (by decide)

end GradeMgmt
